import Mathlib

/-
Verification of the HeptaLearn whiteboard application.

The numeric model uses ℚ for screen/canvas coordinates and scale factors
(the source manipulates JS numbers with +, -, *, /, min, max, abs only,
apart from one square root which is kept abstract).
-/

namespace HeptaLearn

/-- A 2-D point (screen or canvas coordinates). -/
@[ext]
structure Point where
  x : ℚ
  y : ℚ
deriving DecidableEq, Repr

/-- A whiteboard card, as in `types.ts` (`Card`): identity, title, markdown
content, canvas position and size, kind and colour. -/
structure Card where
  id : String
  title : String
  content : String
  x : ℚ
  y : ℚ
  width : ℚ
  height : ℚ
  type : String
  color : String
deriving DecidableEq, Repr

/-- A directed connection between two cards, as in `types.ts` (`Connection`). -/
structure Connection where
  id : String
  fromCardId : String
  toCardId : String
deriving DecidableEq, Repr

/-! ## Viewport transform

The CSS transform `translate(pan) scale(scale)` with origin (0,0) maps a
canvas point to `canvasPoint * scale + pan`; `centerCard` uses the same
convention.  `handleMouseDown` / `handleMouseMove` invert it with
`(screenPoint - pan) / scale`. -/

/-- Canvas → screen, per the container transform and `centerCard`. -/
def toScreen (pan : Point) (scale : ℚ) (p : Point) : Point :=
  ⟨p.x * scale + pan.x, p.y * scale + pan.y⟩

/-- Screen → canvas, per `handleMouseDown` and `handleMouseMove`:
`(e.clientX - pan.x) / scale`. -/
def toCanvas (pan : Point) (scale : ℚ) (p : Point) : Point :=
  ⟨(p.x - pan.x) / scale, (p.y - pan.y) / scale⟩

/-! ## Zoom controls (`Whiteboard.tsx`) -/

/-- Source: `zoomIn`: `setScale(s => Math.min(s + 0.1, 4))`. -/
def zoomIn (s : ℚ) : ℚ := min (s + 1/10) 4

/-- Source: `zoomOut`: `setScale(s => Math.max(s - 0.1, 0.1))`. -/
def zoomOut (s : ℚ) : ℚ := max (s - 1/10) (1/10)

/-- Source: `handleWheel` with the modifier key held:
`delta = -e.deltaY * 0.001; Math.min(Math.max(scale + delta, 0.1), 4)`. -/
def wheelZoom (s deltaY : ℚ) : ℚ :=
  min (max (s + (-deltaY) * (1/1000)) (1/10)) 4

/-! ## Dragging (`handleMouseDown` / `handleMouseMove`) -/

/-- Grab offset recorded on mouse-down:
`(e.client - pan) / scale - card position`. -/
def dragOffset (pan : Point) (scale : ℚ) (client : Point) (card : Card) : Point :=
  ⟨(client.x - pan.x) / scale - card.x, (client.y - pan.y) / scale - card.y⟩

/-- New card position computed on mouse-move:
`(e.client - pan) / scale - dragOffset`. -/
def dragNewPos (pan : Point) (scale : ℚ) (client : Point) (off : Point) : Point :=
  ⟨(client.x - pan.x) / scale - off.x, (client.y - pan.y) / scale - off.y⟩

/-! ## Theorems for the viewport claims -/

/-- C1: for any pan and any scale in [0.1, 4.0], `toCanvas` inverts
`toScreen`: the screen-to-canvas round trip is the identity on canvas
points under a fixed (pan, scale). -/
theorem toCanvas_toScreen_roundTrip (pan : Point) (scale : ℚ) (p : Point)
    (hlo : 1/10 ≤ scale) (hhi : scale ≤ 4) :
    toCanvas pan scale (toScreen pan scale p) = p := by
  have hs : scale ≠ 0 := by positivity
  ext <;> simp [toScreen, toCanvas] <;> field_simp

/-- Witness for C1 at pan = (7, -3), scale = 1/2, p = (5, 11). -/
theorem toCanvas_toScreen_roundTrip_witness :
    (1/10 : ℚ) ≤ 1/2 ∧ (1/2 : ℚ) ≤ 4 ∧
      toCanvas ⟨7, -3⟩ (1/2) (toScreen ⟨7, -3⟩ (1/2) ⟨5, 11⟩) = ⟨5, 11⟩ :=
  ⟨by norm_num, by norm_num,
    toCanvas_toScreen_roundTrip ⟨7, -3⟩ (1/2) ⟨5, 11⟩ (by norm_num) (by norm_num)⟩

/-- C2: starting from any scale in [0.1, 4.0], each zoom control produces a
scale again in [0.1, 4.0]: `zoomIn` (add 0.1, capped at 4), `zoomOut`
(subtract 0.1, floored at 0.1), and the modifier-wheel zoom
(clamp of `s - deltaY * 0.001`). -/
theorem zoom_scale_in_range (s : ℚ) (hlo : 1/10 ≤ s) (hhi : s ≤ 4) :
    (1/10 ≤ zoomIn s ∧ zoomIn s ≤ 4) ∧
    (1/10 ≤ zoomOut s ∧ zoomOut s ≤ 4) ∧
    (∀ deltaY : ℚ, 1/10 ≤ wheelZoom s deltaY ∧ wheelZoom s deltaY ≤ 4) := by
  refine ⟨⟨?_, ?_⟩, ⟨?_, ?_⟩, fun deltaY => ⟨?_, ?_⟩⟩
  · exact le_min (by linarith) (by norm_num)
  · exact min_le_right _ _
  · exact le_max_right _ _
  · exact max_le (by linarith) (by norm_num)
  · exact le_min (le_max_right _ _) (by norm_num)
  · exact min_le_right _ _

/-- Witness for C2 at s = 3.95 (i.e. 79/20). -/
theorem zoom_scale_in_range_witness :
    (1/10 : ℚ) ≤ 79/20 ∧ (79/20 : ℚ) ≤ 4 ∧
      ((1/10 ≤ zoomIn (79/20) ∧ zoomIn (79/20) ≤ 4) ∧
       (1/10 ≤ zoomOut (79/20) ∧ zoomOut (79/20) ≤ 4) ∧
       (∀ deltaY : ℚ, 1/10 ≤ wheelZoom (79/20) deltaY ∧ wheelZoom (79/20) deltaY ≤ 4)) :=
  ⟨by norm_num, by norm_num,
    zoom_scale_in_range (79/20) (by norm_num) (by norm_num)⟩

/-- C3: for any scale in [0.1, 4.0], a drag whose pointer moves by (dx, dy)
in screen space moves the card's canvas position by exactly
(dx / scale, dy / scale): mouse-down records
`grabOffset = toCanvas(pointer) - card.position` and mouse-move sets
`position = toCanvas(pointer + (dx, dy)) - grabOffset`. -/
theorem drag_moves_by_delta_over_scale (pan : Point) (scale : ℚ)
    (hlo : 1/10 ≤ scale) (hhi : scale ≤ 4)
    (card : Card) (client : Point) (dx dy : ℚ) :
    dragNewPos pan scale ⟨client.x + dx, client.y + dy⟩
        (dragOffset pan scale client card)
      = ⟨card.x + dx / scale, card.y + dy / scale⟩ := by
  have hs : scale ≠ 0 := by positivity
  ext
  · show (client.x + dx - pan.x) / scale - ((client.x - pan.x) / scale - card.x)
        = card.x + dx / scale
    field_simp
    ring
  · show (client.y + dy - pan.y) / scale - ((client.y - pan.y) / scale - card.y)
        = card.y + dy / scale
    field_simp
    ring

/-- Witness for C3: scale 2, pan (10, 20), pointer delta (6, -8). -/
theorem drag_moves_by_delta_over_scale_witness :
    (1/10 : ℚ) ≤ 2 ∧ (2 : ℚ) ≤ 4 ∧
      dragNewPos ⟨10, 20⟩ 2 ⟨(100 : ℚ) + 6, (200 : ℚ) + (-8)⟩
          (dragOffset ⟨10, 20⟩ 2 ⟨100, 200⟩
            ⟨"c1", "t", "", 30, 40, 450, 600, "source", "#dcfce7"⟩)
        = ⟨30 + 6 / 2, 40 + (-8) / 2⟩ :=
  ⟨by norm_num, by norm_num,
    drag_moves_by_delta_over_scale ⟨10, 20⟩ 2 (by norm_num) (by norm_num)
      ⟨"c1", "t", "", 30, 40, 450, 600, "source", "#dcfce7"⟩ ⟨100, 200⟩ 6 (-8)⟩

/-! ## Sequential navigation (`navigateSequential` / `centerCard`) -/

/-- Direction argument of `navigateSequential`. -/
inductive NavDir
  | next
  | prev
deriving DecidableEq, Repr

/-- JS `Array.prototype.findIndex`: index of the first match, else -1. -/
def findIndex (p : Card → Bool) : List Card → Int
  | [] => -1
  | c :: cs =>
    if p c then 0
    else if findIndex p cs = -1 then -1 else findIndex p cs + 1

/-- Source: `cards.findIndex(c => c.id === selectedCardId)`. -/
def curIndex (cards : List Card) (sel : Option String) : Int :=
  findIndex (fun c => decide (sel = some c.id)) cards

/-- Unclamped step of `navigateSequential`: pick 0 / last when nothing is
selected, else move one step in the given direction. -/
def navStep (n : Nat) (cur : Int) (dir : NavDir) : Int :=
  if cur = -1 then (match dir with | .next => 0 | .prev => (n : Int) - 1)
  else (match dir with | .next => cur + 1 | .prev => cur - 1)

/-- The two clamping statements of `navigateSequential`:
`if (nextIndex < 0) nextIndex = 0; if (nextIndex >= n) nextIndex = n - 1`. -/
def navClamp (n : Nat) (i0 : Int) : Int :=
  if (n : Int) ≤ (if i0 < 0 then 0 else i0) then (n : Int) - 1
  else (if i0 < 0 then 0 else i0)

/-- Index arithmetic of `navigateSequential`: step, then clamp into [0, n-1]. -/
def navTargetIndex (n : Nat) (cur : Int) (dir : NavDir) : Int :=
  navClamp n (navStep n cur dir)

/-- Source: `centerCard`: the new pan `(clientSize / 2) - (cardCenter * scale)`. -/
def centerPan (vw vh scale : ℚ) (card : Card) : Point :=
  ⟨vw / 2 - (card.x + card.width / 2) * scale,
   vh / 2 - (card.y + card.height / 2) * scale⟩

/-- Source: `navigateSequential`: no-op on an empty card list, otherwise selects and
centers the card at the computed index, returning (selected id, new pan). -/
def navigateSequential (vw vh scale : ℚ) (cards : List Card)
    (sel : Option String) (dir : NavDir) : Option (String × Point) :=
  if cards.length = 0 then none
  else
    match cards[(navTargetIndex cards.length (curIndex cards sel) dir).toNat]? with
    | some c => some (c.id, centerPan vw vh scale c)
    | none => none

theorem findIndex_bounds (p : Card → Bool) (l : List Card) :
    -1 ≤ findIndex p l ∧ findIndex p l < l.length := by
  induction l with
  | nil => simp [findIndex]
  | cons c cs ih =>
    obtain ⟨ih1, ih2⟩ := ih
    refine ⟨?_, ?_⟩ <;>
      · simp only [findIndex, List.length_cons]
        split_ifs <;> push_cast <;> omega

theorem navTargetIndex_none_next (n : Nat) (hn : 0 < n) :
    (navTargetIndex n (-1) .next).toNat = 0 := by
  simp only [navTargetIndex, navStep, navClamp, if_pos rfl]
  split_ifs <;> omega

theorem navTargetIndex_none_prev (n : Nat) (hn : 0 < n) :
    (navTargetIndex n (-1) .prev).toNat = n - 1 := by
  simp only [navTargetIndex, navStep, navClamp, if_pos rfl]
  split_ifs <;> omega

theorem navTargetIndex_found_next (n i : Nat) (hi : i < n) :
    (navTargetIndex n (i : Int) .next).toNat = min (i + 1) (n - 1) := by
  have hne : ¬((i : Int) = -1) := by omega
  simp only [navTargetIndex, navStep, navClamp, if_neg hne]
  rcases le_or_lt (i + 1) (n - 1) with h | h
  · rw [Nat.min_eq_left h]
    split_ifs <;> omega
  · rw [Nat.min_eq_right (Nat.le_of_lt h)]
    split_ifs <;> omega

theorem navTargetIndex_found_prev (n i : Nat) (hi : i < n) :
    (navTargetIndex n (i : Int) .prev).toNat = i - 1 := by
  have hne : ¬((i : Int) = -1) := by omega
  simp only [navTargetIndex, navStep, navClamp, if_neg hne]
  split_ifs <;> omega

theorem navigateSequential_getElem (vw vh scale : ℚ) (cards : List Card)
    (sel : Option String) (dir : NavDir) (j : Nat) (hj : j < cards.length)
    (hidx : (navTargetIndex cards.length (curIndex cards sel) dir).toNat = j) :
    navigateSequential vw vh scale cards sel dir
      = (cards[j]?).map (fun c => (c.id, centerPan vw vh scale c)) := by
  have hne : cards.length ≠ 0 := by omega
  unfold navigateSequential
  rw [if_neg hne, hidx, List.getElem?_eq_getElem hj]
  rfl

/-- C4: `navigateSequential` is a no-op on an empty card list; with no
selection, `next` picks index 0 and `prev` the last index; with a selected
index i it moves one step in list order, clamped to the valid range with no
wraparound (`min (i+1) (n-1)` for `next`, truncated `i-1` for `prev`); the
chosen card is centered with pan `(viewport/2) - (cardCenter * scale)`, so
the card's center maps to the viewport's center under `toScreen`. -/
theorem navigateSequential_spec (vw vh scale : ℚ) (cards : List Card)
    (sel : Option String) :
    (cards = [] → ∀ dir, navigateSequential vw vh scale cards sel dir = none) ∧
    (cards ≠ [] → curIndex cards sel = -1 →
      navigateSequential vw vh scale cards sel .next
        = (cards[0]?).map (fun c => (c.id, centerPan vw vh scale c)) ∧
      navigateSequential vw vh scale cards sel .prev
        = (cards[cards.length - 1]?).map (fun c => (c.id, centerPan vw vh scale c))) ∧
    (∀ i : Nat, curIndex cards sel = (i : Int) →
      navigateSequential vw vh scale cards sel .next
        = (cards[min (i + 1) (cards.length - 1)]?).map
            (fun c => (c.id, centerPan vw vh scale c)) ∧
      navigateSequential vw vh scale cards sel .prev
        = (cards[i - 1]?).map (fun c => (c.id, centerPan vw vh scale c))) ∧
    (∀ card : Card,
      toScreen (centerPan vw vh scale card) scale
          ⟨card.x + card.width / 2, card.y + card.height / 2⟩
        = ⟨vw / 2, vh / 2⟩) := by
  refine ⟨?_, ?_, ?_, ?_⟩
  · rintro rfl dir
    simp [navigateSequential]
  · intro hne hcur
    have hn : 0 < cards.length := List.length_pos.mpr hne
    constructor
    · exact navigateSequential_getElem vw vh scale cards sel .next 0 hn
        (by rw [hcur]; exact navTargetIndex_none_next _ hn)
    · exact navigateSequential_getElem vw vh scale cards sel .prev
        (cards.length - 1) (by omega)
        (by rw [hcur]; exact navTargetIndex_none_prev _ hn)
  · intro i hcur
    have hi : i < cards.length := by
      have h := (findIndex_bounds (fun c => decide (sel = some c.id)) cards).2
      rw [curIndex] at hcur
      omega
    constructor
    · exact navigateSequential_getElem vw vh scale cards sel .next
        (min (i + 1) (cards.length - 1)) (by omega)
        (by rw [hcur]; exact navTargetIndex_found_next _ _ hi)
    · exact navigateSequential_getElem vw vh scale cards sel .prev (i - 1)
        (by omega) (by rw [hcur]; exact navTargetIndex_found_prev _ _ hi)
  · intro card
    ext <;> simp [toScreen, centerPan]

/-- Witness for C4 on a concrete two-card list with the first card
selected: `next` moves to index 1, `prev` stays at index 0. -/
theorem navigateSequential_spec_witness :
    curIndex
        [⟨"a", "t", "", 0, 0, 450, 600, "source", "#dcfce7"⟩,
         ⟨"b", "t", "", 700, 0, 450, 600, "source", "#d1fae5"⟩]
        (some "a") = (0 : Nat) ∧
      navigateSequential 1000 800 1
          [⟨"a", "t", "", 0, 0, 450, 600, "source", "#dcfce7"⟩,
           ⟨"b", "t", "", 700, 0, 450, 600, "source", "#d1fae5"⟩]
          (some "a") .next
        = ([⟨"a", "t", "", 0, 0, 450, 600, "source", "#dcfce7"⟩,
            ⟨"b", "t", "", 700, 0, 450, 600, "source", "#d1fae5"⟩][min (0 + 1) (2 - 1)]?).map
            (fun c => (c.id, centerPan 1000 800 1 c)) :=
  ⟨by decide,
    ((navigateSequential_spec 1000 800 1
        [⟨"a", "t", "", 0, 0, 450, 600, "source", "#dcfce7"⟩,
         ⟨"b", "t", "", 700, 0, 450, 600, "source", "#d1fae5"⟩]
        (some "a")).2.2.1 0 (by decide)).1⟩

/-! ## Connection creation (`handleCreateConnection` in `App.tsx`) -/

/-- Source: `handleCreateConnection`: ignore self-loops and already-present
(source, destination) pairs, otherwise append the new connection. -/
def handleCreateConnection (conns : List Connection)
    (fromId toId newId : String) : List Connection :=
  if fromId = toId then conns
  else if conns.any fun c => decide (c.fromCardId = fromId ∧ c.toCardId = toId) then
    conns
  else conns ++ [⟨newId, fromId, toId⟩]

/-- No connection relates a card to itself. -/
def NoSelfLoop (conns : List Connection) : Prop :=
  ∀ c ∈ conns, c.fromCardId ≠ c.toCardId

/-- No two connections share the same (source, destination) pair. -/
def NoDupPair (conns : List Connection) : Prop :=
  List.Pairwise
    (fun a b => ¬(a.fromCardId = b.fromCardId ∧ a.toCardId = b.toCardId)) conns

/-- C5: a connection-create request with `fromId = toId`, or whose
(source, destination) pair is already present, leaves the store unchanged;
creation is idempotent under repetition; and the no-self-loop /
no-duplicate-pair invariant is preserved. -/
theorem handleCreateConnection_spec (conns : List Connection)
    (fromId toId newId : String) :
    (fromId = toId → handleCreateConnection conns fromId toId newId = conns) ∧
    ((∃ c ∈ conns, c.fromCardId = fromId ∧ c.toCardId = toId) →
      handleCreateConnection conns fromId toId newId = conns) ∧
    (∀ newId2 : String,
      handleCreateConnection (handleCreateConnection conns fromId toId newId)
          fromId toId newId2
        = handleCreateConnection conns fromId toId newId) ∧
    (NoSelfLoop conns ∧ NoDupPair conns →
      NoSelfLoop (handleCreateConnection conns fromId toId newId) ∧
      NoDupPair (handleCreateConnection conns fromId toId newId)) := by
  by_cases hself : fromId = toId
  · have h1 : ∀ nid, handleCreateConnection conns fromId toId nid = conns :=
      fun nid => by simp [handleCreateConnection, hself]
    exact ⟨fun _ => h1 newId, fun _ => h1 newId,
      fun newId2 => by rw [h1 newId, h1 newId2],
      fun h => by rw [h1 newId]; exact h⟩
  · by_cases hdup :
      (conns.any fun c => decide (c.fromCardId = fromId ∧ c.toCardId = toId)) = true
    · have h1 : ∀ nid, handleCreateConnection conns fromId toId nid = conns :=
      fun nid => by
        simp only [handleCreateConnection, if_neg hself]
        rw [if_pos hdup]
      exact ⟨fun h => absurd h hself, fun _ => h1 newId,
        fun newId2 => by rw [h1 newId, h1 newId2],
        fun h => by rw [h1 newId]; exact h⟩
    · have hnomatch : ∀ c ∈ conns,
          ¬(c.fromCardId = fromId ∧ c.toCardId = toId) := by
        intro c hc
        by_contra hcon
        exact hdup (List.any_eq_true.mpr ⟨c, hc, decide_eq_true hcon⟩)
      have h1 : handleCreateConnection conns fromId toId newId
          = conns ++ [⟨newId, fromId, toId⟩] := by
        simp only [handleCreateConnection, if_neg hself]
        rw [if_neg hdup]
      refine ⟨fun h => absurd h hself, ?_, ?_, ?_⟩
      · rintro ⟨c, hc, hmatch⟩
        exact absurd hmatch (hnomatch c hc)
      · intro newId2
        rw [h1]
        have hany : ((conns ++ [(⟨newId, fromId, toId⟩ : Connection)]).any
            fun c => decide (c.fromCardId = fromId ∧ c.toCardId = toId)) = true := by
          apply List.any_eq_true.mpr
          refine ⟨⟨newId, fromId, toId⟩, ?_, ?_⟩
          · exact List.mem_append_right _ (List.mem_singleton_self _)
          · simp
        simp only [handleCreateConnection, if_neg hself]
        rw [if_pos hany]
      · rintro ⟨hloop, hpair⟩
        rw [h1]
        constructor
        · intro c hc
          rcases List.mem_append.mp hc with h | h
          · exact hloop c h
          · simp only [List.mem_singleton] at h
            subst h
            exact hself
        · rw [NoDupPair, List.pairwise_append]
          refine ⟨hpair, List.pairwise_singleton _ _, ?_⟩
          intro a ha b hb
          simp only [List.mem_singleton] at hb
          subst hb
          exact hnomatch a ha

/-- Witness for C5: duplicate request ignored, and the invariant is
preserved when a genuinely new connection is appended. -/
theorem handleCreateConnection_spec_witness :
    handleCreateConnection [⟨"k", "a", "b"⟩] "a" "b" "n" = [⟨"k", "a", "b"⟩] ∧
      (NoSelfLoop (handleCreateConnection [⟨"k", "a", "b"⟩] "a" "c" "n") ∧
       NoDupPair (handleCreateConnection [⟨"k", "a", "b"⟩] "a" "c" "n")) :=
  ⟨(handleCreateConnection_spec [⟨"k", "a", "b"⟩] "a" "b" "n").2.1
      ⟨⟨"k", "a", "b"⟩, by simp, by simp⟩,
    (handleCreateConnection_spec [⟨"k", "a", "b"⟩] "a" "c" "n").2.2.2
      ⟨by simp [NoSelfLoop], by simp [NoDupPair]⟩⟩

/-! ## Markdown import (`markdownUtils.ts`)

Text is modelled as `List Char`; a line is the contents of the text between
newline separators. -/

/-- A line of text. -/
abbrev Line := List Char

/-- Whitespace, as tested by the regex `\s` and stripped by `trim` (the
ASCII whitespace relevant to these inputs). -/
def isWsChar (c : Char) : Bool := c.isWhitespace

/-- Source: `text.split('\n')`. -/
def splitLines : List Char → List Line
  | [] => [[]]
  | c :: cs =>
    if c = '\n' then [] :: splitLines cs
    else
      match splitLines cs with
      | [] => [[c]]
      | l :: ls => (c :: l) :: ls

/-- Source: `lines.join('\n')`. -/
def joinLines : List Line → List Char
  | [] => []
  | [l] => l
  | l :: l2 :: ls => l ++ '\n' :: joinLines (l2 :: ls)

/-- Source: `String.prototype.trim`: drop whitespace from both ends. -/
def trimChars (l : List Char) : List Char :=
  ((l.dropWhile isWsChar).reverse.dropWhile isWsChar).reverse

/-- Source: `/^#{1,2}\s/.test(line)`: one or two `#` followed by a whitespace
character (with the regex's backtracking made explicit: a second `#` is
never itself whitespace). -/
def isHeaderLine (l : Line) : Bool :=
  match l with
  | [] => false
  | a :: rest =>
    if a = '#' then
      match rest with
      | [] => false
      | b :: rest2 =>
        if b = '#' then
          match rest2 with
          | [] => false
          | c :: _ => isWsChar c
        else isWsChar b
    else false

/-- Source: `line.replace(/^#+\s+/, '')`: strip leading hashes and the following
whitespace run when both are present. -/
def stripHashes (l : Line) : Line :=
  if l.takeWhile (fun c => c = '#') ≠ [] ∧
      (l.dropWhile (fun c => c = '#')).takeWhile isWsChar ≠ [] then
    (l.dropWhile (fun c => c = '#')).dropWhile isWsChar
  else l

/-- The cleaned-up header title: `line.replace(/^#+\s+/, '').trim()`. -/
def headerTitle (l : Line) : Line := trimChars (stripHashes l)

/-- A parsed markdown section (`MarkdownSection` in `markdownUtils.ts`). -/
structure MarkdownSection where
  title : Line
  content : Line
deriving DecidableEq, Repr

/-- The header-splitting loop of `parseMarkdownFile`, with the loop state
(`currentTitle`, `currentContent`) passed explicitly; the accumulated
section is emitted when the next header (or the end of input) is reached. -/
def parseLines (currentTitle : Line) (currentContent : List Line) :
    List Line → List MarkdownSection
  | [] =>
    if currentContent.length > 0 then
      [⟨currentTitle, trimChars (joinLines currentContent)⟩]
    else []
  | line :: rest =>
    if isHeaderLine line then
      (if currentContent.length > 0 then
        [⟨currentTitle, trimChars (joinLines currentContent)⟩]
      else []) ++ parseLines (headerTitle line) [line] rest
    else parseLines currentTitle (currentContent ++ [line]) rest

/-- Source: `parseMarkdownFile` (with the file's text already read): split into
lines, run the header loop, and fall back to a single untrimmed section
when no section was produced and the trimmed text is nonempty. -/
def parseMarkdownFile (fileName : Line) (text : List Char) :
    List MarkdownSection :=
  if (parseLines fileName [] (splitLines text)).length = 0 ∧
      trimChars text ≠ [] then
    [⟨fileName, text⟩]
  else parseLines fileName [] (splitLines text)

/-- Boolean prefix test: `leadsWith p l` holds when `l` begins with `p`. -/
def leadsWith : Line → Line → Bool
  | [], _ => true
  | _ :: _, [] => false
  | a :: as, b :: bs => a == b && leadsWith as bs

theorem leadsWith_append (h rest : Line) : leadsWith h (h ++ rest) = true := by
  induction h with
  | nil => rfl
  | cons a as ih => simp [leadsWith, ih]

theorem splitLines_ne_nil (text : List Char) : splitLines text ≠ [] := by
  cases text with
  | nil => simp [splitLines]
  | cons c cs =>
    simp only [splitLines]
    split_ifs
    · simp
    · cases h : splitLines cs <;> simp

theorem joinLines_splitLines (text : List Char) :
    joinLines (splitLines text) = text := by
  induction text with
  | nil => rfl
  | cons c cs ih =>
    simp only [splitLines]
    split_ifs with h
    · subst h
      cases hs : splitLines cs with
      | nil => exact absurd hs (splitLines_ne_nil cs)
      | cons l ls =>
        rw [hs] at ih
        have hj : joinLines ([] :: l :: ls) = '\n' :: joinLines (l :: ls) := rfl
        rw [hj, ih]
    · cases hs : splitLines cs with
      | nil => exact absurd hs (splitLines_ne_nil cs)
      | cons l ls =>
        rw [hs] at ih
        cases ls with
        | nil =>
          have h1 : joinLines [c :: l] = c :: l := rfl
          have h2 : joinLines [l] = l := rfl
          rw [h2] at ih
          rw [h1, ih]
        | cons l2 ls2 =>
          have h1 : joinLines ((c :: l) :: l2 :: ls2)
              = (c :: l) ++ '\n' :: joinLines (l2 :: ls2) := rfl
          have h2 : joinLines (l :: l2 :: ls2)
              = l ++ '\n' :: joinLines (l2 :: ls2) := rfl
          rw [h2] at ih
          rw [h1, List.cons_append, ih]

theorem joinLines_cons (h : Line) (b : List Line) :
    ∃ rest, joinLines (h :: b) = h ++ rest := by
  cases b with
  | nil => exact ⟨[], (List.append_nil h).symm⟩
  | cons l ls => exact ⟨'\n' :: joinLines (l :: ls), rfl⟩

theorem dropWhile_append_of_all {p : Char → Bool} {l r : List Char}
    (h : ∀ a ∈ l, p a = true) :
    (l ++ r).dropWhile p = r.dropWhile p := by
  induction l with
  | nil => rfl
  | cons a as ih =>
    have ha := h a (List.mem_cons_self a as)
    simp only [List.cons_append, List.dropWhile_cons, ha, if_true]
    exact ih fun x hx => h x (List.mem_cons_of_mem a hx)

theorem dropWhile_append_of_not_all {p : Char → Bool} {l r : List Char}
    (h : ¬ ∀ a ∈ l, p a = true) :
    (l ++ r).dropWhile p = l.dropWhile p ++ r := by
  induction l with
  | nil => exact absurd (by simp) h
  | cons a as ih =>
    by_cases hpa : p a = true
    · have has : ¬ ∀ x ∈ as, p x = true := by
        intro hall
        apply h
        intro x hx
        rcases List.mem_cons.mp hx with hx | hx
        · rw [hx]; exact hpa
        · exact hall x hx
      simp only [List.cons_append, List.dropWhile_cons, hpa, if_true, ih has]
    · have hpa' : p a = false := by
        cases hb : p a
        · rfl
        · exact absurd hb hpa
      simp only [List.cons_append, List.dropWhile_cons, hpa']
      simp

theorem isHeaderLine_head {l : Line} (hl : isHeaderLine l = true) :
    ∃ t, l = '#' :: t := by
  cases l with
  | nil => simp [isHeaderLine] at hl
  | cons a as =>
    by_cases ha : a = '#'
    · exact ⟨as, by rw [ha]⟩
    · simp [isHeaderLine, ha] at hl

/-- A header line survives at the front of the trimmed join: `trim` of
`header ++ anything` still begins with the header, provided the header line
itself carries no trailing whitespace. -/
theorem trimChars_head_of_header (h rest : Line)
    (hhead : isHeaderLine h = true)
    (htrimmed : h.reverse.dropWhile isWsChar = h.reverse) :
    leadsWith h (trimChars (h ++ rest)) = true := by
  obtain ⟨t, ht⟩ := isHeaderLine_head hhead
  have hnws : isWsChar '#' = false := by decide
  have hleft : (h ++ rest).dropWhile isWsChar = h ++ rest := by
    rw [ht, List.cons_append, List.dropWhile_cons, hnws]
    simp
  rw [trimChars, hleft, List.reverse_append]
  by_cases hall : ∀ a ∈ rest.reverse, isWsChar a = true
  · rw [dropWhile_append_of_all hall, htrimmed, List.reverse_reverse]
    have := leadsWith_append h []
    rwa [List.append_nil] at this
  · rw [dropWhile_append_of_not_all hall, List.reverse_append,
      List.reverse_reverse]
    exact leadsWith_append h _

theorem parseLines_append_nonheaders (t : Line) (cc : List Line)
    (b ls : List Line) (hb : ∀ l ∈ b, isHeaderLine l = false) :
    parseLines t cc (b ++ ls) = parseLines t (cc ++ b) ls := by
  induction b generalizing cc with
  | nil => simp
  | cons l b' ih =>
    have hl := hb l (List.mem_cons_self l b')
    rw [List.cons_append]
    have hstep : parseLines t cc (l :: (b' ++ ls))
        = parseLines t (cc ++ [l]) (b' ++ ls) := by
      simp only [parseLines, hl]
      rw [if_neg (by simp)]
    rw [hstep, ih (cc ++ [l]) fun x hx => hb x (List.mem_cons_of_mem l hx),
      List.append_assoc, List.singleton_append]

theorem parseLines_final (t : Line) (cc : List Line) (hcc : cc ≠ []) :
    parseLines t cc [] = [⟨t, trimChars (joinLines cc)⟩] := by
  simp only [parseLines]
  rw [if_pos (by simpa using List.length_pos.mpr hcc)]

theorem parseLines_header (t : Line) (cc : List Line) (h : Line)
    (rest : List Line) (hh : isHeaderLine h = true) (hcc : cc ≠ []) :
    parseLines t cc (h :: rest)
      = ⟨t, trimChars (joinLines cc)⟩
          :: parseLines (headerTitle h) [h] rest := by
  simp only [parseLines, hh]
  rw [if_pos trivial, if_pos (by simpa using List.length_pos.mpr hcc)]
  rfl

theorem parseLines_header_nil (t : Line) (h : Line) (rest : List Line)
    (hh : isHeaderLine h = true) :
    parseLines t [] (h :: rest) = parseLines (headerTitle h) [h] rest := by
  simp only [parseLines, hh]
  rw [if_pos trivial, if_neg (by simp)]
  rfl

/-- C6 counterexample: on the header-free text `"hi "`, `parseMarkdownFile`
yields one section whose content is the trimmed text `"hi"`, not the full
text `"hi "`. -/
theorem parseMarkdownFile_not_full_text :
    parseMarkdownFile "f.md".data "hi ".data
        = [⟨"f.md".data, "hi".data⟩]
      ∧ "hi".data ≠ "hi ".data := by
  constructor
  · decide
  · decide

/-- C6 (amended): a file whose lines are a `#`/`##` header, a non-header
body, a second header and a trailing non-header body yields exactly two
sections, each of whose content begins with its (whitespace-free-tailed)
header line; a file with no header lines yields exactly one section whose
content is the full text with surrounding whitespace trimmed. -/
theorem parseMarkdownFile_spec :
    (∀ (name text : List Char) (h1 h2 : Line) (b1 b2 : List Line),
      splitLines text = h1 :: (b1 ++ h2 :: b2) →
      isHeaderLine h1 = true → isHeaderLine h2 = true →
      (∀ l ∈ b1, isHeaderLine l = false) →
      (∀ l ∈ b2, isHeaderLine l = false) →
      h1.reverse.dropWhile isWsChar = h1.reverse →
      h2.reverse.dropWhile isWsChar = h2.reverse →
      ∃ s1 s2 : MarkdownSection,
        parseMarkdownFile name text = [s1, s2] ∧
        leadsWith h1 s1.content = true ∧ leadsWith h2 s2.content = true) ∧
    (∀ (name text : List Char),
      (∀ l ∈ splitLines text, isHeaderLine l = false) →
      parseMarkdownFile name text = [⟨name, trimChars text⟩]) := by
  constructor
  · intro name text h1 h2 b1 b2 hsplit hh1 hh2 hb1 hb2 ht1 ht2
    have hsec : parseLines name [] (splitLines text)
        = [⟨headerTitle h1, trimChars (joinLines (h1 :: b1))⟩,
           ⟨headerTitle h2, trimChars (joinLines (h2 :: b2))⟩] := by
      rw [hsplit, parseLines_header_nil name h1 _ hh1]
      have hb1' : parseLines (headerTitle h1) [h1] (b1 ++ h2 :: b2)
          = parseLines (headerTitle h1) ([h1] ++ b1) (h2 :: b2) :=
        parseLines_append_nonheaders _ _ _ _ hb1
      rw [hb1', parseLines_header _ _ _ _ hh2 (by simp)]
      have hb2' : parseLines (headerTitle h2) [h2] (b2 ++ [])
          = parseLines (headerTitle h2) ([h2] ++ b2) [] :=
        parseLines_append_nonheaders _ _ _ _ hb2
      rw [List.append_nil] at hb2'
      rw [hb2', parseLines_final _ _ (by simp)]
      simp
    refine ⟨⟨headerTitle h1, trimChars (joinLines (h1 :: b1))⟩,
      ⟨headerTitle h2, trimChars (joinLines (h2 :: b2))⟩, ?_, ?_, ?_⟩
    · rw [parseMarkdownFile, if_neg (by rw [hsec]; simp), hsec]
    · obtain ⟨r, hr⟩ := joinLines_cons h1 b1
      simp only [hr]
      exact trimChars_head_of_header h1 r hh1 ht1
    · obtain ⟨r, hr⟩ := joinLines_cons h2 b2
      simp only [hr]
      exact trimChars_head_of_header h2 r hh2 ht2
  · intro name text hall
    have hsec : parseLines name [] (splitLines text)
        = [⟨name, trimChars text⟩] := by
      have h1 : parseLines name [] (splitLines text ++ [])
          = parseLines name ([] ++ splitLines text) [] :=
        parseLines_append_nonheaders _ _ _ _ hall
      rw [List.append_nil, List.nil_append] at h1
      rw [h1, parseLines_final _ _ (splitLines_ne_nil text),
        joinLines_splitLines]
    rw [parseMarkdownFile, if_neg (by rw [hsec]; simp), hsec]

/-- Witness for the amended C6 at a concrete two-header file and a concrete
header-free file. -/
theorem parseMarkdownFile_spec_witness :
    (∃ s1 s2 : MarkdownSection,
      parseMarkdownFile "f.md".data "# A\nhello\n## B\nworld".data
          = [s1, s2] ∧
      leadsWith "# A".data s1.content = true ∧
      leadsWith "## B".data s2.content = true) ∧
    parseMarkdownFile "g.md".data "hi there ".data
        = [⟨"g.md".data, trimChars "hi there ".data⟩] :=
  ⟨parseMarkdownFile_spec.1 "f.md".data "# A\nhello\n## B\nworld".data
      "# A".data "## B".data ["hello".data] ["world".data]
      (by decide) (by decide) (by decide) (by decide) (by decide)
      (by decide) (by decide),
    parseMarkdownFile_spec.2 "g.md".data "hi there ".data (by decide)⟩

/-! ## Gemini service (`geminiService.ts`)

The network request is abstracted as an oracle `api : Except String String`:
`.error e` models an exception thrown inside the `try` block, `.ok t` a
response whose `text` field is `t` (the empty string when absent).  Each
service function returns `Except String String`: `.error` models an
exception escaping the function boundary, `.ok` a returned string. -/

/-- The fixed apology string returned by `generateAIResponse` on an API
failure. -/
def apologyMessage : String :=
  "Error generating response. Please check your API key and try again."

/-- The error thrown by `generateAIResponse` when no API key is set. -/
def missingKeyMessage : String := "API Key not found in environment variables."

/-- The fallback returned when the response has no text. -/
def emptyResponseMessage : String := "I couldn't generate a response."

/-- Source: `translateContent`: original text when no key is configured; inside the
`try`, the response text (or the original text when empty:
`response.text || text`); the original text on a caught error. -/
def translateContent (apiKey : Option String) (api : Except String String)
    (text targetLang : String) : Except String String :=
  match apiKey with
  | none => Except.ok text
  | some _ =>
    match api with
    | Except.error _ => Except.ok text
    | Except.ok t => Except.ok (if t = "" then text else t)

/-- Source: `generateAIResponse` (the unused `history` argument is omitted): throws
when no API key is configured (this happens before the `try` block);
otherwise returns the response text, the fixed fallback when it is empty,
or the fixed apology string on a caught error. -/
def generateAIResponse (apiKey : Option String) (api : Except String String)
    (context userPrompt : String) (useThinking : Bool) :
    Except String String :=
  match apiKey with
  | none => Except.error missingKeyMessage
  | some _ =>
    match api with
    | Except.error _ => Except.ok apologyMessage
    | Except.ok t => Except.ok (if t = "" then emptyResponseMessage else t)

/-- C7 counterexample: with no API key configured, `generateAIResponse`
throws (`Except.error`) rather than returning the apology string — the
`throw` sits before the `try`/`catch`, so it escapes the boundary. -/
theorem generateAIResponse_throws_without_key :
    generateAIResponse none (Except.ok "hello") "ctx" "prompt" false
      = Except.error missingKeyMessage := rfl

/-- C7 (amended): `translateContent` never throws and on any failure (no
API key, or a caught error) returns the original input text unchanged;
`generateAIResponse` never throws **when an API key is configured** and on
a caught failure returns the fixed apology string, but with no API key
configured it throws a missing-key error. -/
theorem service_error_handling :
    (∀ (apiKey : Option String) (api : Except String String)
        (text lang : String),
      ∃ s, translateContent apiKey api text lang = Except.ok s) ∧
    (∀ (apiKey : Option String) (text lang e : String),
      translateContent apiKey (Except.error e) text lang = Except.ok text) ∧
    (∀ (api : Except String String) (text lang : String),
      translateContent none api text lang = Except.ok text) ∧
    (∀ (key : String) (api : Except String String) (ctx prompt : String)
        (th : Bool),
      ∃ s, generateAIResponse (some key) api ctx prompt th = Except.ok s) ∧
    (∀ (key ctx prompt e : String) (th : Bool),
      generateAIResponse (some key) (Except.error e) ctx prompt th
        = Except.ok apologyMessage) ∧
    (∀ (api : Except String String) (ctx prompt : String) (th : Bool),
      generateAIResponse none api ctx prompt th
        = Except.error missingKeyMessage) := by
  refine ⟨?_, ?_, ?_, ?_, ?_, ?_⟩
  · intro apiKey api text lang
    cases apiKey with
    | none => exact ⟨text, rfl⟩
    | some k =>
      cases api with
      | error e => exact ⟨text, rfl⟩
      | ok t => exact ⟨if t = "" then text else t, rfl⟩
  · intro apiKey text lang e
    cases apiKey <;> rfl
  · intro api text lang
    rfl
  · intro key api ctx prompt th
    cases api with
    | error e => exact ⟨apologyMessage, rfl⟩
    | ok t => exact ⟨if t = "" then emptyResponseMessage else t, rfl⟩
  · intro key ctx prompt e th
    rfl
  · intro api ctx prompt th
    rfl

/-! ## Batch file import (`handleFileUpload` in `App.tsx`)

The extraction step (PDF pages / markdown sections, plus optional
translation) yields, per supported file, a list of (title, text) sections;
the import then builds cards column-by-column and auto-generates the
sequential connections. -/

/-- A section produced by the extraction step for one file. -/
structure ImportSection where
  title : String
  text : String
deriving DecidableEq, Repr

/-- One card of a file's column: id `file-<i>-section-<idx>-<Date.now()>`,
x fixed per file, y advancing by card height + vertical gap, and a
per-file alternating shade of green. -/
def sectionCard (fileIdx : Nat) (x : ℚ) (now : Nat) (lang : String)
    (idx : Nat) (s : ImportSection) : Card :=
  { id := "file-" ++ toString fileIdx ++ "-section-" ++ toString idx
        ++ "-" ++ toString now,
    title := s.title ++ " "
        ++ (if lang ≠ "Original" then "(" ++ lang ++ ")" else ""),
    content := s.text,
    x := x,
    y := 100 + (idx : ℚ) * (600 + 60),
    width := 450,
    height := 600,
    type := "source",
    color := if fileIdx % 2 = 0 then "#dcfce7" else "#d1fae5" }

/-- The cards of one file, sections arranged vertically. -/
def fileCards (fileIdx : Nat) (x : ℚ) (now : Nat) (lang : String) :
    Nat → List ImportSection → List Card
  | _, [] => []
  | idx, s :: rest =>
    sectionCard fileIdx x now lang idx s
      :: fileCards fileIdx x now lang (idx + 1) rest

/-- All cards of a batch import, file columns advancing by
card width + column gap (`450 + 200`). -/
def importAllCards (now : Nat) (lang : String) :
    Nat → ℚ → List (List ImportSection) → List Card
  | _, _, [] => []
  | i, x, f :: fs =>
    fileCards i x now lang 0 f
      ++ importAllCards now lang (i + 1) (x + 450 + 200) fs

/-- The auto-generated sequential connections: one `conn-auto-<i>`
connection from each card to the next. -/
def seqConnections : List Card → Nat → List Connection
  | [], _ => []
  | [_], _ => []
  | a :: b :: rest, i =>
    ⟨"conn-auto-" ++ toString i, a.id, b.id⟩
      :: seqConnections (b :: rest) (i + 1)

theorem fileCards_length (fileIdx : Nat) (x : ℚ) (now : Nat) (lang : String)
    (idx : Nat) (sections : List ImportSection) :
    (fileCards fileIdx x now lang idx sections).length = sections.length := by
  induction sections generalizing idx with
  | nil => rfl
  | cons s rest ih => simp [fileCards, ih]

theorem seqConnections_length (cards : List Card) (k : Nat) :
    (seqConnections cards k).length = cards.length - 1 := by
  induction cards generalizing k with
  | nil => rfl
  | cons a rest ih =>
    cases rest with
    | nil => rfl
    | cons b rest2 =>
      simp only [seqConnections, List.length_cons, ih]
      omega

theorem seqConnections_links (cards : List Card) (k j : Nat)
    (conn : Connection)
    (h : (seqConnections cards k)[j]? = some conn) :
    ∃ a b, cards[j]? = some a ∧ cards[j + 1]? = some b ∧
      conn.fromCardId = a.id ∧ conn.toCardId = b.id := by
  induction cards generalizing k j with
  | nil => simp [seqConnections] at h
  | cons a rest ih =>
    cases rest with
    | nil => simp [seqConnections] at h
    | cons b rest2 =>
      cases j with
      | zero =>
        simp only [seqConnections, List.getElem?_cons_zero,
          Option.some.injEq] at h
        exact ⟨a, b, rfl, by simp, by rw [← h], by rw [← h]⟩
      | succ j' =>
        have h' : (seqConnections (b :: rest2) (k + 1))[j']? = some conn := by
          simpa [seqConnections] using h
        obtain ⟨a', b', h1, h2, h3, h4⟩ := ih (k + 1) j' h'
        exact ⟨a', b', by simpa using h1, by simpa using h2, h3, h4⟩

/-- C8: a batch import of two supported files whose extraction step yields
3 sections each produces exactly 6 cards and exactly 5 auto-generated
sequential connections, the j-th connection linking the j-th card to the
(j+1)-th card in file-then-section order. -/
theorem import_two_files_three_sections (now : Nat) (lang : String)
    (f1 f2 : List ImportSection) (h1 : f1.length = 3) (h2 : f2.length = 3) :
    (importAllCards now lang 0 100 [f1, f2]).length = 6 ∧
    (seqConnections (importAllCards now lang 0 100 [f1, f2]) 0).length = 5 ∧
    (∀ (j : Nat) (conn : Connection),
      (seqConnections (importAllCards now lang 0 100 [f1, f2]) 0)[j]?
          = some conn →
      ∃ a b, (importAllCards now lang 0 100 [f1, f2])[j]? = some a ∧
        (importAllCards now lang 0 100 [f1, f2])[j + 1]? = some b ∧
        conn.fromCardId = a.id ∧ conn.toCardId = b.id) := by
  have hlen : (importAllCards now lang 0 100 [f1, f2]).length = 6 := by
    simp [importAllCards, List.length_append, fileCards_length, h1, h2]
  refine ⟨hlen, ?_, ?_⟩
  · rw [seqConnections_length, hlen]
  · intro j conn h
    exact seqConnections_links _ 0 j conn h

/-- Witness for C8 on two concrete three-section files. -/
theorem import_two_files_three_sections_witness :
    (importAllCards 7 "Original" 0 100
        [[⟨"a", "1"⟩, ⟨"b", "2"⟩, ⟨"c", "3"⟩],
         [⟨"d", "4"⟩, ⟨"e", "5"⟩, ⟨"f", "6"⟩]]).length = 6 ∧
    (seqConnections
        (importAllCards 7 "Original" 0 100
          [[⟨"a", "1"⟩, ⟨"b", "2"⟩, ⟨"c", "3"⟩],
           [⟨"d", "4"⟩, ⟨"e", "5"⟩, ⟨"f", "6"⟩]]) 0).length = 5 :=
  ⟨(import_two_files_three_sections 7 "Original"
      [⟨"a", "1"⟩, ⟨"b", "2"⟩, ⟨"c", "3"⟩]
      [⟨"d", "4"⟩, ⟨"e", "5"⟩, ⟨"f", "6"⟩] (by decide) (by decide)).1,
    (import_two_files_three_sections 7 "Original"
      [⟨"a", "1"⟩, ⟨"b", "2"⟩, ⟨"c", "3"⟩]
      [⟨"d", "4"⟩, ⟨"e", "5"⟩, ⟨"f", "6"⟩] (by decide) (by decide)).2.1⟩

/-! ## Connection rendering (`getPath` in `Whiteboard.tsx`)

The produced SVG path `M start C ctrl1, ctrl2, end` is modelled by its
geometric data.  The square root of the horizontal-distance computation is
kept abstract (`sqrtQ`). -/

/-- Shape of a connection curve. -/
inductive PathKind
  | vertical
  | horizontal
deriving DecidableEq, Repr

/-- The geometric content of the cubic Bézier path string. -/
structure PathCurve where
  kind : PathKind
  startP : Point
  ctrl1 : Point
  ctrl2 : Point
  endP : Point
  curvature : ℚ
deriving DecidableEq, Repr

/-- Source: `getPath`, translated from the source: the vertical branch when the
cards are near-aligned horizontally (within half the source width) and the
target is below, else the horizontal branch. -/
def getPath (sqrtQ : ℚ → ℚ) (c1 c2 : Card) : PathCurve :=
  if |c1.x - c2.x| < c1.width / 2 ∧ c2.y > c1.y then
    ⟨.vertical,
      ⟨c1.x + c1.width / 2, c1.y + c1.height⟩,
      ⟨c1.x + c1.width / 2,
        (c1.y + c1.height) + min ((c2.y - (c1.y + c1.height)) * (1/2)) 100⟩,
      ⟨c2.x + c2.width / 2,
        c2.y - min ((c2.y - (c1.y + c1.height)) * (1/2)) 100⟩,
      ⟨c2.x + c2.width / 2, c2.y⟩,
      min ((c2.y - (c1.y + c1.height)) * (1/2)) 100⟩
  else
    ⟨.horizontal,
      ⟨c1.x + c1.width, c1.y + c1.height / 2⟩,
      ⟨(c1.x + c1.width)
          + min (sqrtQ ((c2.x - (c1.x + c1.width)) ^ 2
              + ((c2.y + c2.height / 2) - (c1.y + c1.height / 2)) ^ 2) * (1/2))
            300,
        c1.y + c1.height / 2⟩,
      ⟨c2.x
          - min (sqrtQ ((c2.x - (c1.x + c1.width)) ^ 2
              + ((c2.y + c2.height / 2) - (c1.y + c1.height / 2)) ^ 2) * (1/2))
            300,
        c2.y + c2.height / 2⟩,
      ⟨c2.x, c2.y + c2.height / 2⟩,
      min (sqrtQ ((c2.x - (c1.x + c1.width)) ^ 2
          + ((c2.y + c2.height / 2) - (c1.y + c1.height / 2)) ^ 2) * (1/2))
        300⟩

/-- Bottom-center anchor of a card. -/
def bottomCenter (c : Card) : Point := ⟨c.x + c.width / 2, c.y + c.height⟩

/-- Top-center anchor of a card. -/
def topCenter (c : Card) : Point := ⟨c.x + c.width / 2, c.y⟩

/-- Right-center anchor of a card. -/
def rightCenter (c : Card) : Point := ⟨c.x + c.width, c.y + c.height / 2⟩

/-- Left-center anchor of a card. -/
def leftCenter (c : Card) : Point := ⟨c.x, c.y + c.height / 2⟩

/-- The spec's heuristic condition: horizontally aligned within half the
source card's width, with the target below. -/
def alignedBelow (c1 c2 : Card) : Prop :=
  |c1.x - c2.x| < c1.width / 2 ∧ c2.y > c1.y

/-- The vertical curve as the spec words it: bottom-center of the source to
top-center of the target, curvature `min (verticalDistance * 0.5) 100`. -/
def vertCurveSpec (c1 c2 : Card) : PathCurve :=
  { kind := .vertical,
    startP := bottomCenter c1,
    ctrl1 := ⟨(bottomCenter c1).x,
      (bottomCenter c1).y
        + min (((topCenter c2).y - (bottomCenter c1).y) * (1/2)) 100⟩,
    ctrl2 := ⟨(topCenter c2).x,
      (topCenter c2).y
        - min (((topCenter c2).y - (bottomCenter c1).y) * (1/2)) 100⟩,
    endP := topCenter c2,
    curvature := min (((topCenter c2).y - (bottomCenter c1).y) * (1/2)) 100 }

/-- The horizontal curve as the spec words it: right-center of the source
to left-center of the target, curvature `min (distance * 0.5) 300`. -/
def horizCurveSpec (sqrtQ : ℚ → ℚ) (c1 c2 : Card) : PathCurve :=
  { kind := .horizontal,
    startP := rightCenter c1,
    ctrl1 := ⟨(rightCenter c1).x
        + min (sqrtQ (((leftCenter c2).x - (rightCenter c1).x) ^ 2
            + ((leftCenter c2).y - (rightCenter c1).y) ^ 2) * (1/2)) 300,
      (rightCenter c1).y⟩,
    ctrl2 := ⟨(leftCenter c2).x
        - min (sqrtQ (((leftCenter c2).x - (rightCenter c1).x) ^ 2
            + ((leftCenter c2).y - (rightCenter c1).y) ^ 2) * (1/2)) 300,
      (leftCenter c2).y⟩,
    endP := leftCenter c2,
    curvature := min (sqrtQ (((leftCenter c2).x - (rightCenter c1).x) ^ 2
        + ((leftCenter c2).y - (rightCenter c1).y) ^ 2) * (1/2)) 300 }

/-- C9: `getPath` is a pure function of its two card arguments that renders
the spec's vertical curve exactly when the alignment heuristic holds and
the spec's horizontal curve otherwise; the curvature never exceeds 100 /
300 respectively. -/
theorem getPath_spec (sqrtQ : ℚ → ℚ) (c1 c2 : Card) :
    (alignedBelow c1 c2 → getPath sqrtQ c1 c2 = vertCurveSpec c1 c2) ∧
    (¬ alignedBelow c1 c2 → getPath sqrtQ c1 c2 = horizCurveSpec sqrtQ c1 c2) ∧
    ((getPath sqrtQ c1 c2).kind = .vertical →
      (getPath sqrtQ c1 c2).curvature ≤ 100) ∧
    ((getPath sqrtQ c1 c2).kind = .horizontal →
      (getPath sqrtQ c1 c2).curvature ≤ 300) := by
  by_cases h : alignedBelow c1 c2
  · have he : getPath sqrtQ c1 c2 = vertCurveSpec c1 c2 := by
      unfold getPath
      rw [if_pos (show |c1.x - c2.x| < c1.width / 2 ∧ c2.y > c1.y from h)]
      rfl
    refine ⟨fun _ => he, fun hn => absurd h hn, ?_, ?_⟩
    · intro _
      rw [he]
      exact min_le_right _ _
    · intro hk
      rw [he] at hk
      simp [vertCurveSpec] at hk
  · have he : getPath sqrtQ c1 c2 = horizCurveSpec sqrtQ c1 c2 := by
      unfold getPath
      rw [if_neg
        (show ¬(|c1.x - c2.x| < c1.width / 2 ∧ c2.y > c1.y) from h)]
      rfl
    refine ⟨fun hp => absurd hp h, fun _ => he, ?_, ?_⟩
    · intro hk
      rw [he] at hk
      simp [horizCurveSpec] at hk
    · intro _
      rw [he]
      exact min_le_right _ _

/-- Witness for C9: a target directly below triggers the vertical curve, a
target far to the right the horizontal one. -/
theorem getPath_spec_witness :
    getPath (fun q => q) ⟨"a", "t", "", 0, 0, 450, 600, "source", "x"⟩
        ⟨"b", "t", "", 10, 700, 450, 600, "source", "x"⟩
      = vertCurveSpec ⟨"a", "t", "", 0, 0, 450, 600, "source", "x"⟩
          ⟨"b", "t", "", 10, 700, 450, 600, "source", "x"⟩ ∧
    getPath (fun q => q) ⟨"a", "t", "", 0, 0, 450, 600, "source", "x"⟩
        ⟨"b", "t", "", 700, 0, 450, 600, "source", "x"⟩
      = horizCurveSpec (fun q => q)
          ⟨"a", "t", "", 0, 0, 450, 600, "source", "x"⟩
          ⟨"b", "t", "", 700, 0, 450, 600, "source", "x"⟩ :=
  ⟨(getPath_spec (fun q => q) ⟨"a", "t", "", 0, 0, 450, 600, "source", "x"⟩
      ⟨"b", "t", "", 10, 700, 450, 600, "source", "x"⟩).1
      (by constructor <;> norm_num [alignedBelow]),
    (getPath_spec (fun q => q) ⟨"a", "t", "", 0, 0, 450, 600, "source", "x"⟩
      ⟨"b", "t", "", 700, 0, 450, 600, "source", "x"⟩).2.1
      (by norm_num [alignedBelow])⟩

/-! ## Card updates from dragging (`onCardUpdate` in `App.tsx`) -/

/-- Source: `setCards(cards.map(c => c.id === updated.id ? updated : c))`. -/
def applyCardUpdate (cards : List Card) (updated : Card) : List Card :=
  cards.map fun c => if c.id = updated.id then updated else c

/-- C10: applying a drag's card-update preserves the length and order of
the card list, replaces exactly the position(s) whose identity matches the
updated card, leaves every other card unchanged, and never introduces a
card other than the updated one. -/
theorem applyCardUpdate_spec (cards : List Card) (updated : Card) :
    (applyCardUpdate cards updated).length = cards.length ∧
    (∀ (i : Nat) (c : Card), cards[i]? = some c →
      (c.id ≠ updated.id → (applyCardUpdate cards updated)[i]? = some c) ∧
      (c.id = updated.id →
        (applyCardUpdate cards updated)[i]? = some updated)) ∧
    (∀ c' ∈ applyCardUpdate cards updated, c' ∈ cards ∨ c' = updated) := by
  refine ⟨by simp [applyCardUpdate], ?_, ?_⟩
  · intro i c hc
    constructor
    · intro hne
      rw [applyCardUpdate, List.getElem?_map, hc]
      simp [hne]
    · intro heq
      rw [applyCardUpdate, List.getElem?_map, hc]
      simp [heq]
  · intro c' hc'
    rcases List.mem_map.mp hc' with ⟨c, hc, heq⟩
    by_cases h : c.id = updated.id
    · right
      rw [← heq]
      simp [h]
    · left
      rw [if_neg h] at heq
      rw [← heq]
      exact hc

/-- Witness for C10 on a two-card list where the update matches the second
card: the first card is untouched, the second is replaced. -/
theorem applyCardUpdate_spec_witness :
    (applyCardUpdate
        [⟨"a", "t", "", 0, 0, 450, 600, "source", "x"⟩,
         ⟨"b", "t", "", 5, 5, 450, 600, "source", "x"⟩]
        ⟨"b", "t", "", 9, 9, 450, 600, "source", "x"⟩).length = 2 ∧
    (applyCardUpdate
        [⟨"a", "t", "", 0, 0, 450, 600, "source", "x"⟩,
         ⟨"b", "t", "", 5, 5, 450, 600, "source", "x"⟩]
        ⟨"b", "t", "", 9, 9, 450, 600, "source", "x"⟩)[0]?
      = some ⟨"a", "t", "", 0, 0, 450, 600, "source", "x"⟩ ∧
    (applyCardUpdate
        [⟨"a", "t", "", 0, 0, 450, 600, "source", "x"⟩,
         ⟨"b", "t", "", 5, 5, 450, 600, "source", "x"⟩]
        ⟨"b", "t", "", 9, 9, 450, 600, "source", "x"⟩)[1]?
      = some ⟨"b", "t", "", 9, 9, 450, 600, "source", "x"⟩ :=
  ⟨(applyCardUpdate_spec
      [⟨"a", "t", "", 0, 0, 450, 600, "source", "x"⟩,
       ⟨"b", "t", "", 5, 5, 450, 600, "source", "x"⟩]
      ⟨"b", "t", "", 9, 9, 450, 600, "source", "x"⟩).1,
    ((applyCardUpdate_spec
      [⟨"a", "t", "", 0, 0, 450, 600, "source", "x"⟩,
       ⟨"b", "t", "", 5, 5, 450, 600, "source", "x"⟩]
      ⟨"b", "t", "", 9, 9, 450, 600, "source", "x"⟩).2.1 0
      ⟨"a", "t", "", 0, 0, 450, 600, "source", "x"⟩ rfl).1 (by decide),
    ((applyCardUpdate_spec
      [⟨"a", "t", "", 0, 0, 450, 600, "source", "x"⟩,
       ⟨"b", "t", "", 5, 5, 450, 600, "source", "x"⟩]
      ⟨"b", "t", "", 9, 9, 450, 600, "source", "x"⟩).2.1 1
      ⟨"b", "t", "", 5, 5, 450, 600, "source", "x"⟩ rfl).2 (by decide)⟩

end HeptaLearn
